import Mathlib

/-!
Formal model of the recommendation engine of this repository
(backend/core.py, backend/core2.py, backend/core3.py,
backend/student_recommender.py, backend/degree_recommender_for_university.py,
backend/course_recommender_for_university.py).

Modelling conventions:
* Python strings are Lean String values; Python string comparison is
  code-point lexicographic and is modelled by charListLeB below.
* Python float arithmetic is modelled by exact rational arithmetic.
* External libraries are not part of the repository: the sklearn TF-IDF
  cosine similarities enter the model as oracle inputs (the specification
  states they lie in the interval from 0 to 1), and json.loads of the
  standard library is modelled by a small JSON reader covering the value
  shapes the degree-titles field takes (strings, integers, booleans,
  null and arrays thereof).
* Python dicts of weights are association lists; Python sets of strings
  are Finset String where only cardinalities matter, and sorted lists
  where iteration order matters.
-/

namespace RecSys

/-- Python string comparison, lexicographic by code point: the order used
by the Python built-in sorted on lists of strings. -/
def charListLeB : List Char → List Char → Bool
  | [], _ => true
  | _ :: _, [] => false
  | a :: as, b :: bs =>
    if a.toNat < b.toNat then true
    else if b.toNat < a.toNat then false
    else charListLeB as bs

/-- The order relation on strings induced by charListLeB. -/
def pyStrLe (a b : String) : Prop := charListLeB a.toList b.toList = true

instance : DecidableRel pyStrLe := fun _ _ => instDecidableEqBool _ _

theorem charListLeB_total : ∀ a b : List Char,
    charListLeB a b = true ∨ charListLeB b a = true := by
  intro a
  induction a with
  | nil => intro b; left; rfl
  | cons x xs ih =>
    intro b
    cases b with
    | nil => right; rfl
    | cons y ys =>
      by_cases h1 : x.toNat < y.toNat
      · left; simp [charListLeB, h1]
      · by_cases h2 : y.toNat < x.toNat
        · right; simp [charListLeB, h1, h2]
        · cases ih ys with
          | inl h => left; simp [charListLeB, h1, h2, h]
          | inr h => right; simp [charListLeB, h1, h2, h]

theorem charListLeB_trans : ∀ a b c : List Char,
    charListLeB a b = true → charListLeB b c = true → charListLeB a c = true := by
  intro a
  induction a with
  | nil => intro b c _ _; rfl
  | cons x xs ih =>
    intro b c h1 h2
    cases b with
    | nil => simp [charListLeB] at h1
    | cons y ys =>
      cases c with
      | nil => simp [charListLeB] at h2
      | cons z zs =>
        by_cases hxy : x.toNat < y.toNat
        · by_cases hyz : y.toNat < z.toNat
          · have : x.toNat < z.toNat := Nat.lt_trans hxy hyz
            simp [charListLeB, this]
          · by_cases hzy : z.toNat < y.toNat
            · simp [charListLeB, hyz, hzy] at h2
            · have heq : y.toNat = z.toNat :=
                Nat.le_antisymm (Nat.le_of_not_lt hzy) (Nat.le_of_not_lt hyz)
              have : x.toNat < z.toNat := heq ▸ hxy
              simp [charListLeB, this]
        · by_cases hyx : y.toNat < x.toNat
          · simp [charListLeB, hxy, hyx] at h1
          · have hxyeq : x.toNat = y.toNat :=
              Nat.le_antisymm (Nat.le_of_not_lt hyx) (Nat.le_of_not_lt hxy)
            have h1' : charListLeB xs ys = true := by
              simpa [charListLeB, hxy, hyx] using h1
            by_cases hyz : y.toNat < z.toNat
            · have : x.toNat < z.toNat := hxyeq ▸ hyz
              simp [charListLeB, this]
            · by_cases hzy : z.toNat < y.toNat
              · simp [charListLeB, hyz, hzy] at h2
              · have h2' : charListLeB ys zs = true := by
                  simpa [charListLeB, hyz, hzy] using h2
                have hxz : ¬ x.toNat < z.toNat := by omega
                have hzx : ¬ z.toNat < x.toNat := by omega
                simp [charListLeB, hxz, hzx, ih ys zs h1' h2']

instance : IsTotal String pyStrLe := ⟨fun a b => charListLeB_total a.toList b.toList⟩

instance : IsTrans String pyStrLe :=
  ⟨fun a b c h1 h2 => charListLeB_trans a.toList b.toList c.toList h1 h2⟩

/-- The Python built-in sorted on a list of strings. -/
def pySorted (l : List String) : List String := l.insertionSort pyStrLe

theorem pySorted_sorted (l : List String) : List.Sorted pyStrLe (pySorted l) :=
  List.sorted_insertionSort pyStrLe l

theorem pySorted_perm (l : List String) : (pySorted l).Perm l :=
  List.perm_insertionSort pyStrLe l

theorem pySorted_nodup (l : List String) (h : l.Nodup) : (pySorted l).Nodup :=
  ((pySorted_perm l).nodup_iff).mpr h

theorem pySorted_mem {x : String} {l : List String} : x ∈ pySorted l ↔ x ∈ l :=
  (pySorted_perm l).mem_iff

/-- Python sorted applied to a set built from a list: sorted(set(l)). -/
def pySortedSet (l : List String) : List String := pySorted l.dedup

theorem pySortedSet_sorted (l : List String) : List.Sorted pyStrLe (pySortedSet l) :=
  pySorted_sorted l.dedup

theorem pySortedSet_nodup (l : List String) : (pySortedSet l).Nodup :=
  pySorted_nodup l.dedup (List.nodup_dedup l)

/-- Characters that the Python str.strip default removes (the ASCII
whitespace characters that can occur in the modelled data). -/
def isPySpace (c : Char) : Bool :=
  c = ' ' || c = '\t' || c = '\n' || c = '\r' || c = '\x0b' || c = '\x0c'

/-- Removal of leading and trailing whitespace from a character list. -/
def stripChars (l : List Char) : List Char :=
  ((l.dropWhile isPySpace).reverse.dropWhile isPySpace).reverse

/-- The Python str.strip method. -/
def pyStrip (s : String) : String := String.mk (stripChars s.toList)

theorem dropWhile_head_false (p : Char → Bool) :
    ∀ (l : List Char) (a : Char) (t : List Char),
      l.dropWhile p = a :: t → p a = false := by
  intro l
  induction l with
  | nil => intro a t h; simp [List.dropWhile] at h
  | cons x xs ih =>
    intro a t h
    by_cases hx : p x
    · rw [List.dropWhile_cons, if_pos hx] at h
      exact ih a t h
    · rw [List.dropWhile_cons, if_neg hx] at h
      cases h
      simpa using hx

theorem dropWhile_eq_self_of_head (p : Char → Bool) (l : List Char)
    (h : ∀ a t, l = a :: t → p a = false) : l.dropWhile p = l := by
  cases l with
  | nil => rfl
  | cons x xs =>
    rw [List.dropWhile_cons, if_neg]
    simp [h x xs rfl]

theorem getLast?_dropWhile (p : Char → Bool) :
    ∀ l : List Char, l.dropWhile p = [] ∨ (l.dropWhile p).getLast? = l.getLast? := by
  intro l
  induction l with
  | nil => left; rfl
  | cons x xs ih =>
    by_cases hx : p x
    · rw [List.dropWhile_cons, if_pos hx]
      cases ih with
      | inl h => left; exact h
      | inr h =>
        by_cases hxs : xs.dropWhile p = []
        · left; exact hxs
        · right
          rw [h]
          have hne : xs ≠ [] := by
            intro hh
            apply hxs
            rw [hh]
            rfl
          cases xs with
          | nil => exact absurd rfl hne
          | cons y ys => rw [List.getLast?_cons_cons]
    · rw [List.dropWhile_cons, if_neg hx]
      right
      rfl

theorem stripChars_idem (l : List Char) : stripChars (stripChars l) = stripChars l := by
  unfold stripChars
  set d := l.dropWhile isPySpace with hd
  set e := d.reverse.dropWhile isPySpace with he
  have hstep1 : e.reverse.dropWhile isPySpace = e.reverse := by
    apply dropWhile_eq_self_of_head
    intro a t hat1
    have h1 : e.reverse.head? = some a := by rw [hat1]; rfl
    have h2 : e.getLast? = some a := by
      rw [← List.head?_reverse]
      exact h1
    cases getLast?_dropWhile isPySpace d.reverse with
    | inl hnil =>
      rw [← he] at hnil
      rw [hnil] at hat1
      simp at hat1
    | inr hlast =>
      rw [← he] at hlast
      rw [hlast] at h2
      rw [List.getLast?_reverse] at h2
      cases hdd : d with
      | nil =>
        rw [hdd] at h2
        simp at h2
      | cons b bs =>
        rw [hdd] at h2
        simp at h2
        have hb : isPySpace b = false := dropWhile_head_false isPySpace l b bs (hd ▸ hdd)
        rw [← h2]
        exact hb
  rw [hstep1, List.reverse_reverse]
  have hstep2 : e.dropWhile isPySpace = e := by
    apply dropWhile_eq_self_of_head
    intro a t hat2
    exact dropWhile_head_false isPySpace d.reverse a t (he ▸ hat2)
  rw [hstep2]

theorem stripChars_subset (l : List Char) : ∀ c ∈ stripChars l, c ∈ l := by
  intro c hc
  unfold stripChars at hc
  rw [List.mem_reverse] at hc
  have h1 := (List.dropWhile_sublist isPySpace (l := (l.dropWhile isPySpace).reverse)).mem hc
  rw [List.mem_reverse] at h1
  exact (List.dropWhile_sublist isPySpace (l := l)).mem h1


/-- ASCII lowercase letter test, the character class a-z. -/
def isLowerAZ (c : Char) : Bool := 97 ≤ c.toNat && c.toNat ≤ 122

/-- ASCII uppercase letter test, the character class A-Z. -/
def isUpperAZ (c : Char) : Bool := 65 ≤ c.toNat && c.toNat ≤ 90

/-- ASCII letter test, the character class a-zA-Z. -/
def isAsciiLetter (c : Char) : Bool := isLowerAZ c || isUpperAZ c

/-- ASCII digit test, the character class 0-9. -/
def isDigitCh (c : Char) : Bool := 48 ≤ c.toNat && c.toNat ≤ 57

/-- Allow-list of the title cleaning regex in backend/core.py and
backend/degree_recommender_for_university.py: letters, digits, space,
dash and ampersand survive re.sub. -/
def isAllowedCore (c : Char) : Bool :=
  isAsciiLetter c || isDigitCh c || c = ' ' || c = '-' || c = '&'

/-- Allow-list of the title cleaning regex in backend/core2.py and
backend/course_recommender_for_university.py: as isAllowedCore plus the
two Greek Unicode blocks 0370-03FF and 1F00-1FFF. -/
def isAllowedGreek (c : Char) : Bool :=
  isAllowedCore c || (0x370 ≤ c.toNat && c.toNat ≤ 0x3FF) ||
    (0x1F00 ≤ c.toNat && c.toNat ≤ 0x1FFF)

/-- Title cleaning of backend/core.py line 119: keep only allow-listed
characters, then strip. -/
def cleanTitleCore (s : String) : String :=
  pyStrip (String.mk (s.toList.filter isAllowedCore))

/-- Title cleaning of backend/core2.py line 58 and
backend/course_recommender_for_university.py line 100: keep only
allow-listed characters (including Greek), then strip. -/
def cleanTitleGreek (s : String) : String :=
  pyStrip (String.mk (s.toList.filter isAllowedGreek))

theorem toList_mk (l : List Char) : (String.mk l).toList = l := rfl

theorem cleanTitleGreek_idem (s : String) :
    cleanTitleGreek (cleanTitleGreek s) = cleanTitleGreek s := by
  unfold cleanTitleGreek pyStrip
  simp only [toList_mk]
  have hall : ∀ c ∈ stripChars (s.toList.filter isAllowedGreek), isAllowedGreek c = true := by
    intro c hc
    have hcf := stripChars_subset _ c hc
    exact List.of_mem_filter hcf
  rw [List.filter_eq_self.mpr hall, stripChars_idem]

/-- Python str.lower restricted to the ASCII range: the cleaned degree
titles of core.py contain only ASCII characters, on which Python lower
maps A-Z to a-z and fixes everything else. -/
def asciiLower (c : Char) : Char :=
  match c with
  | 'A' => 'a' | 'B' => 'b' | 'C' => 'c' | 'D' => 'd' | 'E' => 'e'
  | 'F' => 'f' | 'G' => 'g' | 'H' => 'h' | 'I' => 'i' | 'J' => 'j'
  | 'K' => 'k' | 'L' => 'l' | 'M' => 'm' | 'N' => 'n' | 'O' => 'o'
  | 'P' => 'p' | 'Q' => 'q' | 'R' => 'r' | 'S' => 's' | 'T' => 't'
  | 'U' => 'u' | 'V' => 'v' | 'W' => 'w' | 'X' => 'x' | 'Y' => 'y'
  | 'Z' => 'z'
  | d => d

/-- Python str.lower on a whole string (ASCII fragment). -/
def pyLower (s : String) : String := String.mk (s.toList.map asciiLower)

theorem asciiLower_dot {c : Char} (h : asciiLower c = '.') : c = '.' := by
  revert h
  unfold asciiLower
  split <;> intro h <;> simp_all


/-- Dynamic Python value: the shapes the degree-titles field can take
(None, bool, int, str, list). -/
inductive PyVal where
  | pnone : PyVal
  | pbool : Bool → PyVal
  | pint : Int → PyVal
  | pstr : String → PyVal
  | plist : List PyVal → PyVal

/-- Python truthiness of a value, as used by if-not tests in the source. -/
def pyTruthy : PyVal → Bool
  | .pnone => false
  | .pbool b => b
  | .pint n => !(n == 0)
  | .pstr s => !(s == "")
  | .plist l => !l.isEmpty

/-- A single-quote character as a string (used by the Python repr of a
string value). -/
def squote : String := String.mk [Char.ofNat 39]

mutual

/-- Python repr of a modelled value (string escaping is not modelled; the
title pipeline never needs it). -/
def pyRepr : PyVal → String
  | .pnone => "None"
  | .pbool true => "True"
  | .pbool false => "False"
  | .pint n => toString n
  | .pstr s => squote ++ s ++ squote
  | .plist l => "[" ++ pyReprItems l ++ "]"

/-- Comma-separated reprs of the items of a Python list. -/
def pyReprItems : List PyVal → String
  | [] => ""
  | [v] => pyRepr v
  | v :: w :: rest => pyRepr v ++ ", " ++ pyReprItems (w :: rest)

end

/-- The Python built-in str applied to a value. -/
def pyStr : PyVal → String
  | .pstr s => s
  | v => pyRepr v

/-- Numeric value of an ASCII digit character. -/
def digitVal (c : Char) : Option Nat :=
  if 48 ≤ c.toNat ∧ c.toNat ≤ 57 then some (c.toNat - 48) else none

/-- Leading run of digits of a character list, with the remainder. -/
def takeDigits : List Char → (List Nat × List Char)
  | [] => ([], [])
  | c :: rest =>
    match digitVal c with
    | some d =>
      let p := takeDigits rest
      (d :: p.1, p.2)
    | none => ([], c :: rest)

/-- Decimal value of a digit list. -/
def digitsToNat (ds : List Nat) : Nat := ds.foldl (fun acc d => acc * 10 + d) 0

/-- Literal match of a pattern against the head of a character list,
returning the remainder on success. -/
def matchRest : List Char → List Char → Option (List Char)
  | [], s => some s
  | _ :: _, [] => none
  | c :: cs, d :: ds => if c = d then matchRest cs ds else none

/-- Whitespace skipping of the JSON reader. -/
def jsonWs (l : List Char) : List Char :=
  l.dropWhile (fun c => c = ' ' || c = '\t' || c = '\n' || c = '\r')

/-- True when a parsed integer is followed by a fraction or exponent: such
numbers (Python floats) are outside the modelled fragment and make the
reader fail, which the callers treat like any other parse failure. -/
def jsonNumberTail (l : List Char) : Bool :=
  match l with
  | '.' :: _ => true
  | 'e' :: _ => true
  | 'E' :: _ => true
  | _ => false

/-- JSON string body reader (after the opening quote), with the common
escapes; returns the decoded characters and the remainder. -/
def parseJsonStr : List Char → Option (List Char × List Char)
  | [] => none
  | c :: rest =>
    if c = '"' then some ([], rest)
    else if c = '\\' then
      match rest with
      | [] => none
      | e :: rest2 =>
        let esc : Option Char :=
          if e = '"' then some '"'
          else if e = '\\' then some '\\'
          else if e = '/' then some '/'
          else if e = 'n' then some '\n'
          else if e = 't' then some '\t'
          else if e = 'r' then some '\r'
          else if e = 'b' then some (Char.ofNat 8)
          else if e = 'f' then some (Char.ofNat 12)
          else none
        match esc with
        | none => none
        | some ch =>
          match parseJsonStr rest2 with
          | none => none
          | some (cs, r) => some (ch :: cs, r)
    else
      match parseJsonStr rest with
      | none => none
      | some (cs, r) => some (c :: cs, r)

mutual

/-- JSON value reader with fuel (model of json.loads of the Python
standard library, an external collaborator of the engine): strings,
integers, booleans, null and arrays. -/
def parseJsonValue : Nat → List Char → Option (PyVal × List Char)
  | 0, _ => none
  | Nat.succ fuel, l =>
    match jsonWs l with
    | [] => none
    | c :: rest =>
      if c = '"' then
        match parseJsonStr rest with
        | none => none
        | some (cs, r) => some (.pstr (String.mk cs), r)
      else if c = '[' then
        match jsonWs rest with
        | ']' :: r2 => some (.plist [], r2)
        | r1 =>
          match parseJsonItems fuel r1 with
          | none => none
          | some (vs, r2) => some (.plist vs, r2)
      else if c = 't' then
        match matchRest ['r', 'u', 'e'] rest with
        | some r => some (.pbool true, r)
        | none => none
      else if c = 'f' then
        match matchRest ['a', 'l', 's', 'e'] rest with
        | some r => some (.pbool false, r)
        | none => none
      else if c = 'n' then
        match matchRest ['u', 'l', 'l'] rest with
        | some r => some (.pnone, r)
        | none => none
      else if c = '-' then
        match takeDigits rest with
        | ([], _) => none
        | (ds, r) =>
          if jsonNumberTail r then none
          else some (.pint (-(digitsToNat ds : Int)), r)
      else
        match takeDigits (c :: rest) with
        | ([], _) => none
        | (ds, r) =>
          if jsonNumberTail r then none
          else some (.pint (digitsToNat ds), r)

/-- Comma-separated JSON array items up to the closing bracket. -/
def parseJsonItems : Nat → List Char → Option (List PyVal × List Char)
  | 0, _ => none
  | Nat.succ fuel, l =>
    match parseJsonValue fuel l with
    | none => none
    | some (v, r) =>
      match jsonWs r with
      | ',' :: r2 =>
        match parseJsonItems fuel r2 with
        | none => none
        | some (vs, r3) => some (v :: vs, r3)
      | ']' :: r2 => some ([v], r2)
      | _ => none

end

/-- Model of json.loads: parse a whole string as a JSON value, requiring
only whitespace after it. -/
def jsonLoads (s : String) : Option PyVal :=
  match parseJsonValue (s.length + 1) s.toList with
  | none => none
  | some (v, r) => if (jsonWs r).isEmpty then some v else none


/-- Skill row: skill_name and esco_id may be missing (None). -/
structure SkillM where
  skill_name : Option String
  esco_id : Option String

/-- CourseSkill association row: the skill relation may be missing. -/
structure CourseSkillM where
  skill : Option SkillM

/-- Course row: lesson_name may be missing; skills is the CourseSkill
association collection. -/
structure CourseM where
  lesson_name : Option String
  skills : List CourseSkillM

/-- DegreeProgram row: degree_titles is a dynamically typed field. -/
structure ProgramM where
  degree_titles : PyVal

/-- University row with its owned courses and programs. -/
structure UniversityM where
  university_id : Int
  university_name : String
  country : String
  courses : List CourseM
  programs : List ProgramM

/-- The university profile of backend/core.py build_university_profile:
four deduplicated, sorted string collections. -/
structure Profile where
  skills : List String
  skills_raw_names : List String
  courses : List String
  degrees : List String
deriving DecidableEq

/-- Database query filter_by(university_id=id).first(). -/
def findUniversity (db : List UniversityM) (id : Int) : Option UniversityM :=
  db.find? (fun u => u.university_id == id)

/-- Course-name collection loop of build_university_profile (core.py
lines 89-92): append the stripped lesson_name of each course whose
lesson_name is truthy. -/
def courseNamesOf (u : UniversityM) : List String :=
  u.courses.filterMap (fun c =>
    match c.lesson_name with
    | some nm => if nm = "" then none else some (pyStrip nm)
    | none => none)

/-- Skill collection loop of build_university_profile (core.py lines
94-101): for each course-skill with a present skill object, compute the
formatted display entry (with the ESCO id, or N/A when absent) and the
raw stripped name; entries with an empty stripped name are dropped.
Returns (formatted, raw) pairs. -/
def collectSkillPairs (u : UniversityM) : List (String × String) :=
  u.courses.flatMap (fun c =>
    c.skills.filterMap (fun cs =>
      match cs.skill with
      | none => none
      | some sk =>
        let esco :=
          match sk.esco_id with
          | some e => if e = "" then "N/A" else e
          | none => "N/A"
        let name := pyStrip (sk.skill_name.getD "")
        if name = "" then none
        else some (name ++ " (ESCO: " ++ esco ++ ")", name)))

/-- Candidate titles arising from a JSON-parsed string field (core.py
lines 108-114 and core2.py lines 44-49): a parsed list is used as-is, a
parsed scalar is wrapped, a parse failure falls back to the raw string. -/
def titleCandidatesJson (s : String) : List PyVal :=
  match jsonLoads s with
  | some (.plist l) => l
  | some v => [v]
  | none => [.pstr s]

/-- Candidate titles of core.py build_university_profile: a string field
goes through JSON parsing, a list is used as-is, any other scalar is
wrapped as a singleton. -/
def titleCandidatesCore (raw : PyVal) : List PyVal :=
  match raw with
  | .pstr s => titleCandidatesJson s
  | .plist l => l
  | v => [v]

/-- Degree-title loop body of build_university_profile (core.py lines
104-121): falsy fields contribute nothing; falsy candidate titles are
skipped; each remaining candidate is cleaned, and empty cleaned titles
are dropped. -/
def degreeTitlesOf (titlesField : PyVal) : List String :=
  if !pyTruthy titlesField then []
  else
    (titleCandidatesCore titlesField).filterMap (fun t =>
      if !pyTruthy t then none
      else
        let ct := cleanTitleCore (pyStr t)
        if ct = "" then none else some ct)

/-- Profile construction from a University row (core.py lines 81-127):
collect courses, skills and degree titles, then deduplicate and sort
every collection exactly as the source does. -/
def buildFromUniversity (u : UniversityM) : Profile :=
  let pairs := collectSkillPairs u
  { skills := pySorted (pairs.map Prod.fst).dedup
    skills_raw_names :=
      pySorted ((pairs.map Prod.snd).dedup.filter (fun s => !(s == "")))
    courses := pySortedSet ((courseNamesOf u).filter (fun c => !(c == "")))
    degrees := pySorted (u.programs.flatMap (fun pr => degreeTitlesOf pr.degree_titles)).dedup }

/-- UniversityRecommender.build_university_profile of backend/core.py
without the cache (the pure computation: query by id, build, or None when
the university does not exist). -/
def buildUniversityProfile (db : List UniversityM) (id : Int) : Option Profile :=
  match findUniversity db id with
  | none => none
  | some u => some (buildFromUniversity u)

/-- UniversityRecommender.build_university_profile with its per-instance
profile cache (core.py lines 74-75 and 129-130): on a cache hit the cached
profile is returned; a successful build is stored when the cache is
enabled. Returns the result together with the new cache state. -/
def buildProfileCached (db : List UniversityM) (cacheEnabled : Bool)
    (cache : List (Int × Profile)) (id : Int) :
    Option Profile × List (Int × Profile) :=
  if cacheEnabled then
    match cache.lookup id with
    | some p => (some p, cache)
    | none =>
      match buildUniversityProfile db id with
      | none => (none, cache)
      | some p => (some p, (id, p) :: cache)
  else (buildUniversityProfile db id, cache)


/-- Python round(x, k): round half to even at k decimal digits. -/
def pyRoundAt (k : Nat) (x : ℚ) : ℚ :=
  let m : ℚ := (10 : ℚ) ^ k
  let y := x * m
  let fl : ℤ := ⌊y⌋
  let frac := y - (fl : ℚ)
  if frac > 1/2 then ((fl : ℚ) + 1) / m
  else if frac < 1/2 then (fl : ℚ) / m
  else (if fl % 2 = 0 then (fl : ℚ) else (fl : ℚ) + 1) / m

/-- Space-joined text of a list of strings (the Python " ".join). -/
def joinSpace (l : List String) : String := String.intercalate " " l

/-- Combined candidate document of find_similar_universities (core.py
lines 151-158): join the nonempty profile parts with spaces, then strip. -/
def combinedText (p : Profile) : String :=
  let parts :=
    (if !p.skills.isEmpty then [joinSpace p.skills] else []) ++
    (if !p.courses.isEmpty then [joinSpace p.courses] else []) ++
    (if !p.degrees.isEmpty then [joinSpace p.degrees] else [])
  pyStrip (joinSpace parts)

/-- Candidate pool of find_similar_universities (core.py lines 143-161):
all other universities whose profile builds and whose combined document
is nonempty. -/
def validCandidates (db : List UniversityM) (targetId : Int) : List UniversityM :=
  (db.filter (fun u => !(u.university_id == targetId))).filterMap (fun u =>
    match buildUniversityProfile db u.university_id with
    | none => none
    | some p => if combinedText p = "" then none else some u)

/-- Descending similarity order used to rank candidate universities. -/
def simGe (a b : UniversityM × ℚ) : Prop := b.2 ≤ a.2

instance : DecidableRel simGe := fun a b => inferInstanceAs (Decidable (b.2 ≤ a.2))

/-- One ranked entry of find_similar_universities. -/
structure SimilarUniv where
  university_id : Int
  name : String
  country : String
  similarity_score : ℚ
deriving DecidableEq

/-- UniversityRecommender.find_similar_universities of backend/core.py.
The cosine similarities of the external TF-IDF stage enter as the oracle
argument sims (one score per valid candidate, in order). The empty-target
and empty-pool early returns are exactly those of the source (lines
140-141 and 163-164). -/
def findSimilarUniversities (db : List UniversityM) (sims : List ℚ)
    (targetId : Int) (topN : Nat) : List SimilarUniv :=
  match buildUniversityProfile db targetId with
  | none => []
  | some _ =>
    let valid := validCandidates db targetId
    if valid.isEmpty then []
    else
      let ranked := ((valid.zip sims).insertionSort simGe).take topN
      ranked.map (fun p =>
        { university_id := p.1.university_id
          name := p.1.university_name
          country := p.1.country
          similarity_score := pyRoundAt 4 p.2 })

/-- Default scoring weights of UniversityRecommender (core.py lines
48-53); they sum to 0.90, not to 1. -/
def defaultWeights : List (String × ℚ) :=
  [("frequency", 30/100), ("novelty", 25/100),
   ("compatibility", 20/100), ("skill_enrichment", 15/100)]

/-- Lookup in a weight dict modelled as an association list. -/
def lookupWeight (l : List (String × ℚ)) (k : String) : Option ℚ :=
  (l.find? (fun p => p.1 == k)).map Prod.snd

/-- New keys a Python dict.update appends: keys of the update absent from
the base, in first-appearance order, with their last-assigned value. -/
def newKeys (base upd : List (String × ℚ)) : List (String × ℚ) :=
  (upd.map Prod.fst).dedup.filterMap (fun k =>
    if (base.map Prod.fst).contains k then none
    else (lookupWeight upd.reverse k).map (fun v => (k, v)))

/-- Python dict.update: existing keys are overwritten in place, new keys
are appended. -/
def dictUpdate (base upd : List (String × ℚ)) : List (String × ℚ) :=
  base.map (fun p => (p.1, (lookupWeight upd.reverse p.1).getD p.2)) ++ newKeys base upd

/-- Sum of the values of a weight dict. -/
def wsum (l : List (String × ℚ)) : ℚ := (l.map Prod.snd).sum

/-- Weight initialization of UniversityRecommender.__init__ (core.py
lines 47-67): no weights (or an empty, hence falsy, dict) keeps the
defaults; otherwise the supplied weights are merged over the defaults;
a zero merged total falls back to the defaults, any other total
normalizes every entry by the total. -/
def initWeights (weights : Option (List (String × ℚ))) : List (String × ℚ) :=
  match weights with
  | none => defaultWeights
  | some ws =>
    if ws.isEmpty then defaultWeights
    else
      let merged := dictUpdate defaultWeights ws
      let total := wsum merged
      if total = 0 then defaultWeights
      else merged.map (fun p => (p.1, p.2 / total))

/-- Sum of a weight dict over the four scoring keys (missing keys count
as zero). -/
def sumFourKeys (l : List (String × ℚ)) : ℚ :=
  ((lookupWeight l "frequency").getD 0) + ((lookupWeight l "novelty").getD 0) +
    ((lookupWeight l "compatibility").getD 0) +
    ((lookupWeight l "skill_enrichment").getD 0)


/-- Lower-cased skill set: the set comprehension with s.lower() used on
both sides of the compatibility computation (core.py lines 310-311). -/
def lowerSet (l : List String) : Finset String := (l.map pyLower).toFinset

/-- Per-occurrence compatibility contribution of suggest_degrees_with_skills
(core.py lines 308-316): lower-cased raw skill sets of the candidate and
the target; overlap over union plus one (the plus one avoids division by
zero). -/
def degreeCompatContribution (pRaw targetRaw : List String) : ℚ :=
  let a := lowerSet pRaw
  let b := lowerSet targetRaw
  let overlap := (a ∩ b).card
  let unionCount := (a ∪ b).card
  (overlap : ℚ) / ((unionCount : ℚ) + 1)

/-- Final compatibility of a suggested degree (core.py line 344): the
accumulated contributions divided by the occurrence count. -/
def degreeCompatScore (contribs : List (List String × List String)) : ℚ :=
  ((contribs.map (fun pr => degreeCompatContribution pr.1 pr.2)).sum) /
    ((contribs.length : ℚ))

/-- Clamped novelty of suggest_degrees_with_skills (core.py line 343). -/
def clampNovelty (sim : ℚ) : ℚ := max 0 (min 1 (1 - sim))

/-- Compatibility of suggest_courses_for_degree (core2.py lines 261-264
and course_recommender_for_university.py lines 341-344): plain Jaccard
index with an explicit zero guard on the union size. -/
def courseCompatScore (skills targetSkills : Finset String) : ℚ :=
  let intersectionSize := (skills ∩ targetSkills).card
  let unionSize := (skills ∪ targetSkills).card
  if unionSize = 0 then 0 else (intersectionSize : ℚ) / (unionSize : ℚ)

/-- Unclamped novelty of suggest_courses_for_degree (core2.py line 266). -/
def courseNovelty (sim : ℚ) : ℚ := 1 - sim

/-- Compatibility formula as the specification words it: size of the
intersection over size of the union plus one. -/
def compatSpecFormula (a b : Finset String) : ℚ :=
  ((a ∩ b).card : ℚ) / (((a ∪ b).card : ℚ) + 1)

/-- Word characters of the regex word boundary (ASCII fragment: the
cleaned titles the classifier receives are ASCII). -/
def isWordChar (c : Char) : Bool := isAsciiLetter c || isDigitCh c || c = '_'

/-- Boundary condition on the character preceding a match position. -/
def boundaryOk (prev : Option Char) : Bool :=
  match prev with
  | none => true
  | some c => !(isWordChar c)

/-- Match of the literal pattern w at the head of s with regex word
boundaries on both sides; prev is the character before the position. -/
def wordHere (w s : List Char) (prev : Option Char) : Bool :=
  match matchRest w s with
  | none => false
  | some rest =>
    boundaryOk prev &&
      (match rest with
       | [] => true
       | c :: _ => !(isWordChar c))

/-- Scan of all match positions for a whole-word occurrence. -/
def containsWordFrom (w : List Char) : List Char → Option Char → Bool
  | [], prev => wordHere w [] prev
  | c :: cs, prev => wordHere w (c :: cs) prev || containsWordFrom w cs (some c)

/-- Whole-word containment: the regex search for a word-bounded literal
alternative. -/
def containsWord (w s : String) : Bool := containsWordFrom w.toList s.toList none

/-- Degree-type classifier of suggest_degrees_with_skills (core.py lines
355-362 and degree_recommender_for_university.py lines 410-417): the
lower-cased title is searched for the word-bounded alternatives
master, msc, ma, m.sc (the duplicated msc alternative of the regex is
redundant), then phd, doctorate, doctoral; otherwise BSc/BA. -/
def classifyDegreeType (deg : String) : String :=
  let degLower := pyLower deg
  if containsWord "master" degLower || containsWord "msc" degLower ||
      containsWord "ma" degLower || containsWord "m.sc" degLower then "MSc/MA"
  else if containsWord "phd" degLower || containsWord "doctorate" degLower ||
      containsWord "doctoral" degLower then "PhD"
  else "BSc/BA"

/-- MSc condition as the specification words it: the case-folded title
contains master, msc or ma as a whole word. -/
def specMScWord (s : String) : Bool :=
  containsWord "master" (pyLower s) || containsWord "msc" (pyLower s) ||
    containsWord "ma" (pyLower s)

/-- PhD condition as the specification words it: the case-folded title
contains phd, doctorate or doctoral as a whole word. -/
def specPhDWord (s : String) : Bool :=
  containsWord "phd" (pyLower s) || containsWord "doctorate" (pyLower s) ||
    containsWord "doctoral" (pyLower s)

/-- Title normalizer CourseRecommender._parse_titles of backend/core2.py
lines 37-60 (and course_recommender_for_university.py lines 65-102): a
falsy field yields the empty list; a string field is JSON-parsed with the
plain-string fallback, a list is used as-is, any other value is wrapped
as its str; every truthy candidate is cleaned through the allow-list
filter and trimmed. The comprehension filters on the raw candidate, so a
cleaned-to-empty title stays in the output. -/
def parseTitles (rawTitles : PyVal) : List String :=
  if !pyTruthy rawTitles then []
  else
    let titles : List PyVal :=
      match rawTitles with
      | .pstr s => titleCandidatesJson s
      | .plist l => l
      | v => [.pstr (pyStr v)]
    titles.filterMap (fun t =>
      if pyTruthy t then some (cleanTitleGreek (pyStr t)) else none)


/-- An elective candidate course as it reaches the scoring loop of
CourseRecommenderV4.recommend_electives_for_degree_enhanced
(student_recommender.py lines 449-456): its lesson name and its
normalized, nonempty skill set. -/
structure ElectiveCourse where
  name : String
  skills : Finset String

/-- One entry of the scored elective list (student_recommender.py lines
474-485; fields irrelevant to the modelled claims are omitted). -/
structure ScoredElective where
  lesson_name : String
  final_score : ℚ
  tfidf_score : ℚ
  overlap_ratio : ℚ
deriving DecidableEq

/-- Overlap ratio of the elective engine (student_recommender.py lines
452-455): matched user-course skills over the union, with a zero guard on
an empty union. -/
def electiveOverlapRatio (userSkills courseSkills : Finset String) : ℚ :=
  let matched := (userSkills ∩ courseSkills).card
  let unionSet := courseSkills ∪ userSkills
  if unionSet = ∅ then 0 else (matched : ℚ) / (unionSet.card : ℚ)

/-- Scoring-loop body for one elective candidate paired with its oracle
TF-IDF similarity (student_recommender.py lines 450-485): the candidate
is dropped (None) exactly when its overlap ratio is below the minimum AND
its similarity is below 0.01; otherwise the two signals are blended,
clamped to the unit interval and rounded. -/
def scoreOneElective (tfidfWeight overlapWeight minOverlapRatio : ℚ)
    (userSkills : Finset String) (cand : ElectiveCourse × ℚ) :
    Option ScoredElective :=
  let overlapRatio := electiveOverlapRatio userSkills cand.1.skills
  let tfidfScore := cand.2
  if overlapRatio < minOverlapRatio ∧ tfidfScore < 1/100 then none
  else
    let finalScore :=
      max 0 (min 1 (tfidfWeight * tfidfScore + overlapWeight * overlapRatio))
    some { lesson_name := cand.1.name
           final_score := pyRoundAt 3 finalScore
           tfidf_score := pyRoundAt 3 tfidfScore
           overlap_ratio := pyRoundAt 3 overlapRatio }

/-- The scored list built by the loop (student_recommender.py lines
449-485). -/
def scoreElectives (tfidfWeight overlapWeight minOverlapRatio : ℚ)
    (userSkills : Finset String) (cands : List (ElectiveCourse × ℚ)) :
    List ScoredElective :=
  cands.filterMap (scoreOneElective tfidfWeight overlapWeight minOverlapRatio userSkills)

/-- Descending final-score order used to rank scored electives. -/
def electiveGe (a b : ScoredElective) : Prop := b.final_score ≤ a.final_score

instance : DecidableRel electiveGe :=
  fun a b => inferInstanceAs (Decidable (b.final_score ≤ a.final_score))

/-- Output stage of recommend_electives_for_degree_enhanced
(student_recommender.py lines 490-491): keep scored entries with
final_score at least 0.1, sort descending by final_score, truncate to
max 1 topN. -/
def recommendElectivesOutput (tfidfWeight overlapWeight minOverlapRatio : ℚ)
    (userSkills : Finset String) (cands : List (ElectiveCourse × ℚ))
    (topN : Nat) : List ScoredElective :=
  let scored := scoreElectives tfidfWeight overlapWeight minOverlapRatio userSkills cands
  let scoredFiltered := scored.filter (fun c => decide ((1 : ℚ)/10 ≤ c.final_score))
  (scoredFiltered.insertionSort electiveGe).take (max 1 topN)


theorem compatSpecFormula_bounds (a b : Finset String) :
    0 ≤ compatSpecFormula a b ∧ compatSpecFormula a b ≤ 1 := by
  unfold compatSpecFormula
  constructor
  · positivity
  · rw [div_le_one (by positivity)]
    have h : (a ∩ b).card ≤ (a ∪ b).card :=
      Finset.card_le_card Finset.inter_subset_union
    have h2 : ((a ∩ b).card : ℚ) ≤ ((a ∪ b).card : ℚ) := by exact_mod_cast h
    linarith

theorem courseCompatScore_bounds (a b : Finset String) :
    0 ≤ courseCompatScore a b ∧ courseCompatScore a b ≤ 1 := by
  unfold courseCompatScore
  by_cases h : (a ∪ b).card = 0
  · simp [h]
  · rw [if_neg h]
    have hpos : (0 : ℚ) < ((a ∪ b).card : ℚ) := by
      have : 0 < (a ∪ b).card := Nat.pos_of_ne_zero h
      exact_mod_cast this
    constructor
    · positivity
    · rw [div_le_one hpos]
      have hc : (a ∩ b).card ≤ (a ∪ b).card :=
        Finset.card_le_card Finset.inter_subset_union
      exact_mod_cast hc

theorem sum_le_length (l : List ℚ) (h : ∀ x ∈ l, x ≤ 1) :
    l.sum ≤ (l.length : ℚ) := by
  induction l with
  | nil => simp
  | cons a t ih =>
    simp only [List.sum_cons, List.length_cons]
    have ha := h a (by simp)
    have ht := ih (fun x hx => h x (by simp [hx]))
    push_cast
    linarith

theorem sum_div_length_bounds (l : List ℚ) (hne : l ≠ [])
    (h : ∀ x ∈ l, 0 ≤ x ∧ x ≤ 1) :
    0 ≤ l.sum / (l.length : ℚ) ∧ l.sum / (l.length : ℚ) ≤ 1 := by
  have hlen : (0 : ℚ) < (l.length : ℚ) := by
    have : 0 < l.length := List.length_pos.mpr hne
    exact_mod_cast this
  have hsum0 : 0 ≤ l.sum := List.sum_nonneg (fun x hx => (h x hx).1)
  constructor
  · positivity
  · rw [div_le_one hlen]
    exact sum_le_length l (fun x hx => (h x hx).2)


theorem lookupWeight_cons_hit (k : String) (v : ℚ) (rest : List (String × ℚ)) :
    lookupWeight ((k, v) :: rest) k = some v := by
  unfold lookupWeight
  rw [List.find?_cons_of_pos _ (by simp)]
  rfl

theorem lookupWeight_cons_miss (k k' : String) (v : ℚ) (rest : List (String × ℚ))
    (h : k ≠ k') :
    lookupWeight ((k, v) :: rest) k' = lookupWeight rest k' := by
  unfold lookupWeight
  rw [List.find?_cons_of_neg _ (by simp [h])]

/-- An all-zero caller weight map over the four scoring keys. -/
def zeroWeights : List (String × ℚ) :=
  [("frequency", 0), ("novelty", 0), ("compatibility", 0), ("skill_enrichment", 0)]

/-- C1 counterexample: an all-zero caller weight map falls back to the
literal defaults, whose sum over the four scoring keys is 0.90 — not
within 1e-9 of 1.0 — so the constructed weight map does not always sum
to 1.0. -/
theorem C1_weights_sum_counterexample :
    initWeights (some zeroWeights) = defaultWeights ∧
    sumFourKeys (initWeights (some zeroWeights)) = 9/10 ∧
    ¬ |sumFourKeys (initWeights (some zeroWeights)) - 1| ≤ 1/1000000000 := by
  have hmerged : dictUpdate defaultWeights zeroWeights = zeroWeights := rfl
  have htot : wsum zeroWeights = 0 := by
    norm_num [wsum, zeroWeights]
  have hinit : initWeights (some zeroWeights) = defaultWeights := by
    unfold initWeights
    dsimp only
    rw [if_neg (by decide : ¬ zeroWeights.isEmpty = true)]
    rw [hmerged, htot]
    simp
  have hsum : sumFourKeys defaultWeights = 9/10 := by
    unfold sumFourKeys
    norm_num [show lookupWeight defaultWeights "frequency" = some (30/100) from rfl,
      show lookupWeight defaultWeights "novelty" = some (25/100) from rfl,
      show lookupWeight defaultWeights "compatibility" = some (20/100) from rfl,
      show lookupWeight defaultWeights "skill_enrichment" = some (15/100) from rfl]
  refine ⟨hinit, by rw [hinit]; exact hsum, ?_⟩
  rw [hinit, hsum]
  rw [abs_le]
  norm_num

/-- C1 amended: when the caller supplies a nonempty weight map whose keys
are among the four scoring keys and whose merged total is nonzero, the
constructed weight map is normalized and its sum over the four keys is
exactly 1; with no weights argument (and equally on the zero-total
fallback) the constructor keeps the literal defaults, which sum to 0.90. -/
theorem C1_weights_sum_amended (ws : List (String × ℚ))
    (hne : ws ≠ [])
    (hkeys : ∀ k ∈ ws.map Prod.fst, k ∈ defaultWeights.map Prod.fst)
    (htot : wsum (dictUpdate defaultWeights ws) ≠ 0) :
    sumFourKeys (initWeights (some ws)) = 1 ∧
    initWeights none = defaultWeights ∧
    sumFourKeys defaultWeights = 9/10 := by
  have hnew : newKeys defaultWeights ws = [] := by
    unfold newKeys
    rw [List.filterMap_eq_nil_iff]
    intro k hk
    have hk2 : k ∈ ws.map Prod.fst := List.mem_dedup.mp hk
    have hk3 : k ∈ defaultWeights.map Prod.fst := hkeys k hk2
    rw [if_pos (List.elem_eq_true_of_mem hk3)]
  have hiniteq : initWeights (some ws) =
      (dictUpdate defaultWeights ws).map
        (fun p => (p.1, p.2 / wsum (dictUpdate defaultWeights ws))) := by
    unfold initWeights
    dsimp only
    rw [if_neg (by simp [List.isEmpty_iff, hne] : ¬ ws.isEmpty = true)]
    rw [if_neg htot]
  set v1 := (lookupWeight ws.reverse "frequency").getD (30/100) with hv1
  set v2 := (lookupWeight ws.reverse "novelty").getD (25/100) with hv2
  set v3 := (lookupWeight ws.reverse "compatibility").getD (20/100) with hv3
  set v4 := (lookupWeight ws.reverse "skill_enrichment").getD (15/100) with hv4
  have hmerged : dictUpdate defaultWeights ws =
      [("frequency", v1), ("novelty", v2), ("compatibility", v3), ("skill_enrichment", v4)] := by
    unfold dictUpdate
    rw [hnew]
    simp [defaultWeights, ← hv1, ← hv2, ← hv3, ← hv4]
  have htval : wsum (dictUpdate defaultWeights ws) = v1 + v2 + v3 + v4 := by
    rw [hmerged]
    simp [wsum]
    ring
  have hW : wsum [("frequency", v1), ("novelty", v2), ("compatibility", v3),
      ("skill_enrichment", v4)] = v1 + v2 + v3 + v4 := by
    simp [wsum]
    ring
  have hne0 : v1 + v2 + v3 + v4 ≠ 0 := by
    rw [← hW, ← hmerged]
    exact htot
  refine ⟨?_, rfl, ?_⟩
  · rw [hiniteq, hmerged, hW]
    simp only [List.map_cons, List.map_nil]
    unfold sumFourKeys
    rw [lookupWeight_cons_hit]
    rw [lookupWeight_cons_miss _ _ _ _ (by decide), lookupWeight_cons_hit]
    rw [lookupWeight_cons_miss _ _ _ _ (by decide),
      lookupWeight_cons_miss _ _ _ _ (by decide), lookupWeight_cons_hit]
    rw [lookupWeight_cons_miss _ _ _ _ (by decide),
      lookupWeight_cons_miss _ _ _ _ (by decide),
      lookupWeight_cons_miss _ _ _ _ (by decide), lookupWeight_cons_hit]
    simp only [Option.getD_some]
    rw [div_add_div_same, div_add_div_same, div_add_div_same]
    exact div_self hne0
  · unfold sumFourKeys
    norm_num [show lookupWeight defaultWeights "frequency" = some (30/100) from rfl,
      show lookupWeight defaultWeights "novelty" = some (25/100) from rfl,
      show lookupWeight defaultWeights "compatibility" = some (20/100) from rfl,
      show lookupWeight defaultWeights "skill_enrichment" = some (15/100) from rfl]

/-- Witness for the amended C1 at a concrete partial weight map. -/
theorem C1_weights_sum_amended_witness :
    sumFourKeys (initWeights (some [("novelty", 2)])) = 1 :=
  (C1_weights_sum_amended [("novelty", 2)]
    (by decide)
    (by decide)
    (by norm_num [wsum, dictUpdate, newKeys, defaultWeights, lookupWeight, List.find?,
      show (("novelty" : String) == "frequency") = false from rfl,
      show (("novelty" : String) == "compatibility") = false from rfl,
      show (("novelty" : String) == "skill_enrichment") = false from rfl,
      show (("novelty" : String) == "novelty") = true from rfl])).1


/-- C2 counterexample: with identical one-element skill sets, course
suggestion computes a compatibility of 1 (plain Jaccard), while the
smoothed formula of the claim gives 1/2 — the course-suggestion
compatibility is not the plus-one-smoothed ratio. -/
theorem C2_compat_counterexample :
    courseCompatScore {"python"} {"python"} = 1 ∧
    compatSpecFormula {"python"} {"python"} = 1/2 ∧
    courseCompatScore {"python"} {"python"} ≠
      compatSpecFormula {"python"} {"python"} := by
  refine ⟨?_, ?_, ?_⟩ <;> norm_num [courseCompatScore, compatSpecFormula]

/-- C2 amended: the degree-suggestion compatibility contribution is
exactly the smoothed formula of the claim on the lower-cased raw skill
sets; the course-suggestion compatibility is the plain Jaccard index with
an explicit zero guard (equal to intersection over union whenever the
union is nonempty, and 0 when both sets are empty); neither divides by
zero and both always lie in the unit interval, with value 0 on two empty
sets. -/
theorem C2_compat_amended :
    (∀ pRaw targetRaw : List String,
      degreeCompatContribution pRaw targetRaw =
        compatSpecFormula (lowerSet pRaw) (lowerSet targetRaw)) ∧
    (∀ a b : Finset String, (a ∪ b).card ≠ 0 →
      courseCompatScore a b = ((a ∩ b).card : ℚ) / ((a ∪ b).card : ℚ)) ∧
    courseCompatScore ∅ ∅ = 0 ∧
    compatSpecFormula ∅ ∅ = 0 ∧
    (∀ a b : Finset String,
      0 ≤ courseCompatScore a b ∧ courseCompatScore a b ≤ 1) ∧
    (∀ a b : Finset String,
      0 ≤ compatSpecFormula a b ∧ compatSpecFormula a b ≤ 1) := by
  refine ⟨fun _ _ => rfl, ?_, ?_, ?_, courseCompatScore_bounds, compatSpecFormula_bounds⟩
  · intro a b h
    unfold courseCompatScore
    rw [if_neg h]
  · norm_num [courseCompatScore]
  · norm_num [compatSpecFormula]

/-- Witness for the amended C2 at concrete skill sets with a nonempty
union. -/
theorem C2_compat_amended_witness :
    courseCompatScore {"python"} (∅ : Finset String) =
      ((({"python"} : Finset String) ∩ ∅).card : ℚ) /
        ((({"python"} : Finset String) ∪ ∅).card : ℚ) :=
  C2_compat_amended.2.1 {"python"} ∅ (by decide)

/-- A university owning one course with two skills whose names differ
only in letter case. -/
def dbCaseSensitive : List UniversityM :=
  [{ university_id := 1, university_name := "U1", country := "GR",
     courses := [{ lesson_name := some "Databases",
                   skills := [{ skill := some { skill_name := some "Python", esco_id := none } },
                              { skill := some { skill_name := some "python", esco_id := none } }] }],
     programs := [] }]

/-- C3 counterexample: the profile builder deduplicates by exact string
equality only, so the skill names Python and python — equal
case-insensitively but not equal — both survive into
skills_raw_names (and into skills). -/
theorem C3_caseDuplicates_counterexample :
    (buildUniversityProfile dbCaseSensitive 1).map Profile.skills_raw_names =
      some ["Python", "python"] ∧
    (buildUniversityProfile dbCaseSensitive 1).map Profile.skills =
      some ["Python (ESCO: N/A)", "python (ESCO: N/A)"] ∧
    pyLower "Python" = pyLower "python" ∧ "Python" ≠ "python" :=
  ⟨by decide, by decide, by decide, by decide⟩

/-- C3 amended: every collection of a built profile is deduplicated under
exact string equality and returned sorted (in Python code-point order);
case-insensitive duplicates are possible. -/
theorem C3_profile_nodup_sorted (db : List UniversityM) (id : Int) (p : Profile)
    (h : buildUniversityProfile db id = some p) :
    (p.skills.Nodup ∧ List.Sorted pyStrLe p.skills) ∧
    (p.skills_raw_names.Nodup ∧ List.Sorted pyStrLe p.skills_raw_names) ∧
    (p.courses.Nodup ∧ List.Sorted pyStrLe p.courses) ∧
    (p.degrees.Nodup ∧ List.Sorted pyStrLe p.degrees) := by
  unfold buildUniversityProfile at h
  cases hf : findUniversity db id with
  | none => rw [hf] at h; cases h
  | some u =>
    rw [hf] at h
    cases h
    unfold buildFromUniversity
    refine ⟨⟨?_, ?_⟩, ⟨?_, ?_⟩, ⟨?_, ?_⟩, ⟨?_, ?_⟩⟩
    · exact pySorted_nodup _ (List.nodup_dedup _)
    · exact pySorted_sorted _
    · exact pySorted_nodup _ ((List.nodup_dedup _).filter _)
    · exact pySorted_sorted _
    · exact pySortedSet_nodup _
    · exact pySortedSet_sorted _
    · exact pySorted_nodup _ (List.nodup_dedup _)
    · exact pySorted_sorted _

/-- Witness for the amended C3 at a concretely built profile. -/
theorem C3_profile_nodup_sorted_witness :
    buildUniversityProfile dbCaseSensitive 1 =
      some { skills := ["Python (ESCO: N/A)", "python (ESCO: N/A)"],
             skills_raw_names := ["Python", "python"],
             courses := ["Databases"], degrees := [] } ∧
    ((["Python (ESCO: N/A)", "python (ESCO: N/A)"] : List String).Nodup ∧
      List.Sorted pyStrLe ["Python (ESCO: N/A)", "python (ESCO: N/A)"]) ∧
    ((["Python", "python"] : List String).Nodup ∧
      List.Sorted pyStrLe ["Python", "python"]) ∧
    ((["Databases"] : List String).Nodup ∧ List.Sorted pyStrLe ["Databases"]) ∧
    (([] : List String).Nodup ∧ List.Sorted pyStrLe []) :=
  ⟨by decide, C3_profile_nodup_sorted dbCaseSensitive 1
    { skills := ["Python (ESCO: N/A)", "python (ESCO: N/A)"],
      skills_raw_names := ["Python", "python"],
      courses := ["Databases"], degrees := [] } (by decide)⟩

/-- C4: all per-candidate compatibility and novelty scores lie in the
unit interval. In degree suggestion the compatibility is the average of
the per-occurrence smoothed contributions and novelty is explicitly
clamped; in course suggestion the compatibility is the zero-guarded
Jaccard index and the novelty is one minus the cosine similarity, which
lies in the unit interval because the oracle similarity does. -/
theorem C4_scores_bounded (contribs : List (List String × List String))
    (hne : contribs ≠ []) (simD simC : ℚ) (h0 : 0 ≤ simC) (h1 : simC ≤ 1) :
    (0 ≤ degreeCompatScore contribs ∧ degreeCompatScore contribs ≤ 1) ∧
    (0 ≤ clampNovelty simD ∧ clampNovelty simD ≤ 1) ∧
    (∀ a b : Finset String,
      0 ≤ courseCompatScore a b ∧ courseCompatScore a b ≤ 1) ∧
    (0 ≤ courseNovelty simC ∧ courseNovelty simC ≤ 1) := by
  refine ⟨?_, ?_, courseCompatScore_bounds, ?_⟩
  · unfold degreeCompatScore
    have hlen : (contribs.map (fun pr => degreeCompatContribution pr.1 pr.2)).length
        = contribs.length := List.length_map _ _
    rw [← hlen]
    apply sum_div_length_bounds
    · simp [hne]
    · intro x hx
      obtain ⟨pr, _, hpr⟩ := List.mem_map.mp hx
      rw [← hpr]
      have := compatSpecFormula_bounds (lowerSet pr.1) (lowerSet pr.2)
      exact this
  · unfold clampNovelty
    constructor
    · exact le_max_left 0 _
    · apply max_le
      · norm_num
      · exact min_le_left 1 _
  · unfold courseNovelty
    constructor <;> linarith

/-- Witness for C4 at concrete inputs. -/
theorem C4_scores_bounded_witness :
    (0 ≤ degreeCompatScore [(["a"], ["a"])] ∧ degreeCompatScore [(["a"], ["a"])] ≤ 1) ∧
    (0 ≤ clampNovelty (3/2) ∧ clampNovelty (3/2) ≤ 1) ∧
    (∀ a b : Finset String,
      0 ≤ courseCompatScore a b ∧ courseCompatScore a b ≤ 1) ∧
    (0 ≤ courseNovelty (1/2) ∧ courseNovelty (1/2) ≤ 1) :=
  C4_scores_bounded [(["a"], ["a"])] (by decide) (3/2) (1/2)
    (by norm_num) (by norm_num)


theorem matchRest_mem : ∀ (w s r : List Char), matchRest w s = some r →
    ∀ c ∈ w, c ∈ s := by
  intro w
  induction w with
  | nil => intro s r _ c hc; cases hc
  | cons x xs ih =>
    intro s r h c hc
    cases s with
    | nil => simp [matchRest] at h
    | cons d ds =>
      unfold matchRest at h
      by_cases hxd : x = d
      · rw [if_pos hxd] at h
        cases List.mem_cons.mp hc with
        | inl hcx => exact List.mem_cons.mpr (Or.inl (hcx.trans hxd))
        | inr hcxs => exact List.mem_cons.mpr (Or.inr (ih ds r h c hcxs))
      · rw [if_neg hxd] at h
        cases h

theorem wordHere_mem (w s : List Char) (prev : Option Char)
    (h : wordHere w s prev = true) : ∀ c ∈ w, c ∈ s := by
  unfold wordHere at h
  cases hm : matchRest w s with
  | none => rw [hm] at h; cases h
  | some r => exact matchRest_mem w s r hm

theorem containsWordFrom_mem (w : List Char) :
    ∀ (s : List Char) (prev : Option Char),
      containsWordFrom w s prev = true → ∀ c ∈ w, c ∈ s := by
  intro s
  induction s with
  | nil =>
    intro prev h c hc
    exact wordHere_mem w [] prev h c hc
  | cons d ds ih =>
    intro prev h c hc
    unfold containsWordFrom at h
    cases Bool.or_eq_true_iff.mp h with
    | inl hh => exact wordHere_mem w (d :: ds) prev hh c hc
    | inr ht => exact List.mem_cons.mpr (Or.inr (ih (some d) ht c hc))

theorem pyLower_toList (s : String) : (pyLower s).toList = s.toList.map asciiLower := rfl

theorem containsWord_mdotsc_false (s : String)
    (h : ∀ c ∈ s.toList, isAllowedCore c = true) :
    containsWord "m.sc" (pyLower s) = false := by
  by_contra hcw
  have hcw' : containsWord "m.sc" (pyLower s) = true := by
    cases hb : containsWord "m.sc" (pyLower s) with
    | false => exact absurd hb hcw
    | true => rfl
  have hdot : '.' ∈ (pyLower s).toList := by
    have := containsWordFrom_mem ("m.sc".toList) ((pyLower s).toList) none hcw' '.'
    apply this
    decide
  rw [pyLower_toList] at hdot
  obtain ⟨c, hcs, hcl⟩ := List.mem_map.mp hdot
  have hc : c = '.' := asciiLower_dot hcl
  have hall := h c hcs
  rw [hc] at hall
  exact absurd hall (by decide)

/-- C5: on cleaned degree titles (which contain only allow-listed
characters, in particular no dot, so the dead m.sc regex alternative can
never fire) the classifier returns MSc/MA exactly when the case-folded
title contains master, msc or ma as a whole word, otherwise PhD exactly
when it contains phd, doctorate or doctoral as a whole word, and BSc/BA
otherwise. -/
theorem C5_degree_classifier (s : String)
    (h : ∀ c ∈ s.toList, isAllowedCore c = true) :
    (classifyDegreeType s = "MSc/MA" ↔ specMScWord s = true) ∧
    (classifyDegreeType s = "PhD" ↔ (specMScWord s = false ∧ specPhDWord s = true)) ∧
    (classifyDegreeType s = "BSc/BA" ↔ (specMScWord s = false ∧ specPhDWord s = false)) := by
  have hmdot := containsWord_mdotsc_false s h
  unfold classifyDegreeType
  dsimp only
  rw [hmdot]
  simp only [Bool.or_false]
  cases hmsc : specMScWord s with
  | true =>
    unfold specMScWord at hmsc
    rw [hmsc]
    simp
  | false =>
    unfold specMScWord at hmsc
    rw [hmsc]
    simp only [if_false, Bool.false_eq_true]
    cases hphd : specPhDWord s with
    | true =>
      unfold specPhDWord at hphd
      rw [hphd]
      simp
    | false =>
      unfold specPhDWord at hphd
      rw [hphd]
      simp

/-- Witness for C5 at a cleaned title containing Pharma: no whole-word
match, hence BSc/BA. -/
theorem C5_degree_classifier_witness :
    (∀ c ∈ ("Pharma Studies" : String).toList, isAllowedCore c = true) ∧
    classifyDegreeType "Pharma Studies" = "BSc/BA" :=
  ⟨by decide, (C5_degree_classifier "Pharma Studies" (by decide)).2.2.mpr (by decide)⟩


/-- C6 counterexample: the normalizer comprehension filters on the raw
candidate, not on the cleaned result, so a string that cleans to empty is
returned as an empty title instead of being dropped. -/
theorem C6_parseTitles_counterexample :
    parseTitles (.pstr "###") = [""] ∧ "" ∈ parseTitles (.pstr "###") :=
  ⟨by decide, by decide⟩

/-- C6 amended: the normalizer is a total function (it never raises);
every returned element is the allow-list-filtered and trimmed form of
some truthy raw candidate — hence a fixed point of the cleaning — but a
candidate whose cleaned form is empty is kept as an empty string rather
than dropped; the JSON-encoded example still parses to exactly the single
title MSc Data Science. -/
theorem C6_parseTitles_clean :
    (∀ (raw : PyVal) (x : String), x ∈ parseTitles raw → cleanTitleGreek x = x) ∧
    parseTitles (.pstr "[\"MSc Data Science\"]") = ["MSc Data Science"] := by
  constructor
  · intro raw x hx
    unfold parseTitles at hx
    by_cases ht : pyTruthy raw
    · rw [if_neg (by simp [ht])] at hx
      obtain ⟨t, _, hft⟩ := List.mem_filterMap.mp hx
      by_cases htt : pyTruthy t
      · rw [if_pos htt] at hft
        have hx2 : x = cleanTitleGreek (pyStr t) := (Option.some_injective _ hft).symm
        rw [hx2]
        exact cleanTitleGreek_idem (pyStr t)
      · rw [if_neg htt] at hft
        cases hft
    · rw [if_pos (by simp [ht])] at hx
      cases hx
  · decide

/-- Witness for the amended C6 at a plain-string field. -/
theorem C6_parseTitles_clean_witness :
    "abc" ∈ parseTitles (.pstr "abc") ∧ cleanTitleGreek "abc" = "abc" :=
  ⟨by decide, C6_parseTitles_clean.1 (.pstr "abc") "abc" (by decide)⟩


/-- Scenario user profile: four target skills. -/
def scenarioUser : Finset String := {"python", "sql", "statistics", "ml"}

/-- Scenario candidates: one course sharing three of the four target
skills (overlap ratio 3/5) with similarity 1/2, one sharing none
(overlap ratio 0) with similarity 0. -/
def scenarioCands : List (ElectiveCourse × ℚ) :=
  [({ name := "Machine Learning",
      skills := {"python", "sql", "statistics", "optimization"} }, 1/2),
   ({ name := "Art History",
      skills := {"painting", "sculpture", "history", "aesthetics"} }, 0)]

/-- C7: a candidate elective survives into the scored list exactly when
it is not the case that its overlap ratio is below the minimum AND its
similarity is below 0.01; in the concrete scenario with minimum overlap
ratio 0.1, only the course sharing three of four skills is retained, and
it also survives the final output stage. -/
theorem C7_elective_cutoff :
    (∀ (tw ow mr : ℚ) (user : Finset String) (c : ElectiveCourse) (t : ℚ),
      (scoreOneElective tw ow mr user (c, t)).isSome = true ↔
        ¬ (electiveOverlapRatio user c.skills < mr ∧ t < 1/100)) ∧
    scoreElectives (6/10) (4/10) (1/10) scenarioUser scenarioCands =
      [{ lesson_name := "Machine Learning", final_score := 27/50,
         tfidf_score := 1/2, overlap_ratio := 3/5 }] ∧
    recommendElectivesOutput (6/10) (4/10) (1/10) scenarioUser scenarioCands 5 =
      [{ lesson_name := "Machine Learning", final_score := 27/50,
         tfidf_score := 1/2, overlap_ratio := 3/5 }] := by
  have hov1 : electiveOverlapRatio scenarioUser
      ({"python", "sql", "statistics", "optimization"} : Finset String) = 3/5 := by
    unfold electiveOverlapRatio
    dsimp only
    rw [if_neg (by decide)]
    rw [show (scenarioUser ∩
        ({"python", "sql", "statistics", "optimization"} : Finset String)).card = 3
        from by decide]
    rw [show (({"python", "sql", "statistics", "optimization"} : Finset String) ∪
        scenarioUser).card = 5 from by decide]
    norm_num
  have hov2 : electiveOverlapRatio scenarioUser
      ({"painting", "sculpture", "history", "aesthetics"} : Finset String) = 0 := by
    unfold electiveOverlapRatio
    dsimp only
    rw [if_neg (by decide)]
    rw [show (scenarioUser ∩
        ({"painting", "sculpture", "history", "aesthetics"} : Finset String)).card = 0
        from by decide]
    norm_num
  have h1 : scoreOneElective (6/10) (4/10) (1/10) scenarioUser
      ({ name := "Machine Learning",
         skills := {"python", "sql", "statistics", "optimization"} }, 1/2) =
      some { lesson_name := "Machine Learning", final_score := 27/50,
             tfidf_score := 1/2, overlap_ratio := 3/5 } := by
    unfold scoreOneElective
    dsimp only
    rw [hov1]
    rw [if_neg (by norm_num)]
    norm_num [pyRoundAt, min_def, max_def, ScoredElective.mk.injEq]
  have h2 : scoreOneElective (6/10) (4/10) (1/10) scenarioUser
      ({ name := "Art History",
         skills := {"painting", "sculpture", "history", "aesthetics"} }, 0) =
      none := by
    unfold scoreOneElective
    dsimp only
    rw [hov2]
    rw [if_pos (by norm_num)]
  have hscored : scoreElectives (6/10) (4/10) (1/10) scenarioUser scenarioCands =
      [{ lesson_name := "Machine Learning", final_score := 27/50,
         tfidf_score := 1/2, overlap_ratio := 3/5 }] := by
    unfold scoreElectives scenarioCands
    rw [List.filterMap_cons, h1, List.filterMap_cons, h2, List.filterMap_nil]
  refine ⟨?_, hscored, ?_⟩
  · intro tw ow mr user c t
    unfold scoreOneElective
    dsimp only
    by_cases hc : electiveOverlapRatio user c.skills < mr ∧ t < 1/100
    · rw [if_pos hc]
      exact iff_of_false (by simp) (not_not_intro hc)
    · rw [if_neg hc]
      exact iff_of_true rfl hc
  · unfold recommendElectivesOutput
    rw [hscored]
    dsimp only
    rw [List.filter_cons]
    rw [if_pos (by norm_num)]
    rw [List.filter_nil]
    simp [List.insertionSort]


/-- C8: find_similar_universities returns the empty list (and, being a
total function, never raises) both when the target university does not
exist and when the candidate pool — other universities with a buildable
profile and a nonempty combined document — is empty, whatever the
similarity oracle returns. -/
theorem C8_findSimilar_empty (db : List UniversityM) (sims : List ℚ)
    (targetId : Int) (topN : Nat) :
    (buildUniversityProfile db targetId = none →
      findSimilarUniversities db sims targetId topN = []) ∧
    (validCandidates db targetId = [] →
      findSimilarUniversities db sims targetId topN = []) := by
  constructor
  · intro h
    unfold findSimilarUniversities
    rw [h]
  · intro h
    unfold findSimilarUniversities
    cases hb : buildUniversityProfile db targetId with
    | none => rfl
    | some p =>
      dsimp only
      rw [if_pos (by rw [h]; rfl)]

/-- Witness for C8: an empty database (unknown target id, empty pool). -/
theorem C8_findSimilar_empty_witness :
    findSimilarUniversities [] [] 1 5 = [] ∧ findSimilarUniversities [] [] 1 5 = [] :=
  ⟨(C8_findSimilar_empty [] [] 1 5).1 rfl,
   (C8_findSimilar_empty [] [] 1 5).2 rfl⟩

/-- C9: building the same profile twice on one recommender instance
returns identical structural content, with the cache enabled or disabled:
the second call — run on the cache state the first call left behind —
returns exactly the first result. -/
theorem C9_profile_idempotent (db : List UniversityM) (cacheEnabled : Bool)
    (cache : List (Int × Profile)) (id : Int) :
    (buildProfileCached db cacheEnabled
        (buildProfileCached db cacheEnabled cache id).2 id).1 =
      (buildProfileCached db cacheEnabled cache id).1 := by
  by_cases hce : cacheEnabled = true
  · cases hl : cache.lookup id with
    | some p => simp [buildProfileCached, hce, hl]
    | none =>
      cases hb : buildUniversityProfile db id with
      | none => simp [buildProfileCached, hce, hl, hb]
      | some p => simp [buildProfileCached, hce, hl, hb, List.lookup]
  · simp [buildProfileCached, hce]

/-- C10: every elective the output stage returns has a stored final score
of at least 0.1 — entries below the floor are filtered out before the
descending sort and truncation. -/
theorem C10_elective_score_floor (tfidfWeight overlapWeight minOverlapRatio : ℚ)
    (userSkills : Finset String) (cands : List (ElectiveCourse × ℚ)) (topN : Nat)
    (e : ScoredElective)
    (he : e ∈ recommendElectivesOutput tfidfWeight overlapWeight minOverlapRatio
      userSkills cands topN) :
    (1 : ℚ)/10 ≤ e.final_score := by
  unfold recommendElectivesOutput at he
  have h1 := List.take_subset _ _ he
  have h2 := ((List.perm_insertionSort electiveGe _).mem_iff).mp h1
  have h3 := List.mem_filter.mp h2
  exact of_decide_eq_true h3.2

/-- A one-candidate call used to witness the elective score floor. -/
def c10Course : ElectiveCourse := { name := "Databases", skills := {"sql"} }

/-- The scored entry that call returns. -/
def c10Entry : ScoredElective :=
  { lesson_name := "Databases", final_score := 1, tfidf_score := 1, overlap_ratio := 1 }

/-- Witness for C10 at a concrete call returning one elective. -/
theorem C10_elective_score_floor_witness :
    c10Entry ∈ recommendElectivesOutput (6/10) (4/10) (1/10)
      ({"sql"} : Finset String) [(c10Course, 1)] 5 ∧
    (1 : ℚ)/10 ≤ c10Entry.final_score := by
  have hov : electiveOverlapRatio ({"sql"} : Finset String)
      ({"sql"} : Finset String) = 1 := by
    unfold electiveOverlapRatio
    dsimp only
    rw [if_neg (by decide)]
    rw [show (({"sql"} : Finset String) ∩ ({"sql"} : Finset String)).card = 1
      from by decide]
    rw [show (({"sql"} : Finset String) ∪ ({"sql"} : Finset String)).card = 1
      from by decide]
    norm_num
  have h1 : scoreOneElective (6/10) (4/10) (1/10) ({"sql"} : Finset String)
      (c10Course, 1) = some c10Entry := by
    unfold scoreOneElective c10Course c10Entry
    dsimp only
    rw [hov]
    rw [if_neg (by norm_num)]
    norm_num [pyRoundAt, min_def, max_def, ScoredElective.mk.injEq]
  have hmem : c10Entry ∈ recommendElectivesOutput (6/10) (4/10) (1/10)
      ({"sql"} : Finset String) [(c10Course, 1)] 5 := by
    unfold recommendElectivesOutput scoreElectives
    rw [List.filterMap_cons, h1, List.filterMap_nil]
    dsimp only
    rw [List.filter_cons]
    rw [if_pos (by norm_num [c10Entry])]
    rw [List.filter_nil]
    simp [List.insertionSort]
  exact ⟨hmem, C10_elective_score_floor (6/10) (4/10) (1/10)
    ({"sql"} : Finset String) [(c10Course, 1)] 5 c10Entry hmem⟩

end RecSys
